import Mathlib

/-!
Verification of the spectral-index utilities in `utils/vi_utils.py`.

The module is embedded shallowly:

* Python dicts become association lists (`List (String × _)`) with
  first-match lookup (`dget`/`dfind`), in-place-style value replacement
  (`dinsert`) and `dict.update` (`dupdate`), matching CPython semantics
  for string-keyed dicts (unique keys, insertion order, caller values
  replacing existing values in place).
* The formula strings of the catalog are embedded as a small arithmetic
  AST (`Formula`) transcribed from the strings with ordinary precedence.
* Pixel values are symbolic terms (`Value`): an image band holds an
  opaque source pixel `Value.px i` or a term built from pixels, so that
  equality of computed band values is decidable term equality.
* The external engine primitives used by the source — `select`,
  `expression`, `rename`, `addBands`, collection `map` — are modelled
  from the collaborator contract of the spec (section 6): `select`
  picks the first band with the given name, `expression` evaluates the
  formula against the symbol table, `addBands` appends bands preserving
  the existing ones, `map` applies a per-image transform independently.
  Failure anywhere (missing band, unknown name, unbound symbol) is
  `Option.none`, standing for the raised exception.
-/

/-- First pair of an association list with the given key (Python dict lookup,
keys are unique in any dict the source builds, so first match is the match). -/
def dfind {α : Type} : List (String × α) → String → Option (String × α)
  | [], _ => none
  | p :: rest, k => if p.1 = k then some p else dfind rest k

/-- Value lookup: `d[k]` / `d.get(k)`. -/
def dget {α : Type} (d : List (String × α)) (k : String) : Option α :=
  (dfind d k).map Prod.snd

/-- Lookup with default: `d.get(k, dflt)`. -/
def dgetD {α : Type} (d : List (String × α)) (k : String) (dflt : α) : α :=
  (dget d k).getD dflt

/-- Write one key: replaces the value of an existing key in place, otherwise
appends the new pair at the end (CPython dict assignment). -/
def dinsert {α : Type} : List (String × α) → String → α → List (String × α)
  | [], k, v => [(k, v)]
  | p :: rest, k, v => if p.1 = k then (k, v) :: rest else p :: dinsert rest k v

/-- Merge a second dict over a first: `d.update(o)` / `{**d, **o}`,
values of `o` win on key collision. -/
def dupdate {α : Type} (d o : List (String × α)) : List (String × α) :=
  o.foldl (fun acc p => dinsert acc p.1 p.2) d

/-- Arithmetic formula AST: the embedding of the formula strings of the
catalog (numbers, symbol references, the operators the strings use). -/
inductive Formula : Type where
  | num : ℚ → Formula
  | var : String → Formula
  | add : Formula → Formula → Formula
  | sub : Formula → Formula → Formula
  | mul : Formula → Formula → Formula
  | div : Formula → Formula → Formula
  | pow : Formula → Formula → Formula
  | tanh : Formula → Formula
deriving DecidableEq

/-- Symbolic pixel value: an opaque source pixel (`px i`) or a term over
pixels and rationals.  The engine computes numerically; for the claims only
which term is computed matters, so values stay symbolic and comparable. -/
inductive Value : Type where
  | num : ℚ → Value
  | px : Nat → Value
  | add : Value → Value → Value
  | sub : Value → Value → Value
  | mul : Value → Value → Value
  | div : Value → Value → Value
  | pow : Value → Value → Value
  | tanh : Value → Value
deriving DecidableEq

/-- An image is its ordered list of named bands (name, per-pixel value). -/
abbrev Image := List (String × Value)

/-- An entry of the symbol table handed to `image.expression`: either a
(single-band) image produced by `select`, or a plain number (a parameter). -/
inductive EnvVal : Type where
  | img : Image → EnvVal
  | num : ℚ → EnvVal
deriving DecidableEq

/-- Modelled from the spec (section 6, collaborator contract (a)):
`image.select(name)` yields the single-band image holding the first band
with that name; a missing band is an engine failure (`none`). -/
def select (image : Image) (b : String) : Option Image :=
  (dfind image b).map (fun p => [p])

/-- Evaluate a formula against a symbol table.  A symbol bound to an image
contributes the value of the first band of that image (engine behaviour for
image arguments); an unbound symbol is an engine failure. -/
def evalFormula (env : List (String × EnvVal)) : Formula → Option Value
  | .num q => some (.num q)
  | .var s =>
    match dget env s with
    | some (.img b) => b.head?.map Prod.snd
    | some (.num q) => some (.num q)
    | none => none
  | .add a b =>
    (evalFormula env a).bind fun va => (evalFormula env b).map fun vb => .add va vb
  | .sub a b =>
    (evalFormula env a).bind fun va => (evalFormula env b).map fun vb => .sub va vb
  | .mul a b =>
    (evalFormula env a).bind fun va => (evalFormula env b).map fun vb => .mul va vb
  | .div a b =>
    (evalFormula env a).bind fun va => (evalFormula env b).map fun vb => .div va vb
  | .pow a b =>
    (evalFormula env a).bind fun va => (evalFormula env b).map fun vb => .pow va vb
  | .tanh a =>
    (evalFormula env a).map fun va => .tanh va

/-- Modelled from the spec (section 6, collaborator contract (b)):
`image.expression(formula, expr_dict)` evaluates the formula over the
symbol table and returns a single-band image (default band name
"constant", as the engine names expression outputs). -/
def expression (env : List (String × EnvVal)) (f : Formula) : Option Image :=
  (evalFormula env f).map fun v => [("constant", v)]

/-- Modelled from the spec (section 6, collaborator contract (c)):
`img.rename(name)` on a single-band image. -/
def rename (img : Image) (name : String) : Image :=
  img.map fun p => (name, p.2)

/-- Modelled from the spec (section 6, collaborator contract (d)):
`image.addBands(other)` appends the bands of `other`, preserving all
existing bands and their order. -/
def addBands (image other : Image) : Image :=
  image ++ other

/-- One catalog entry: formula, role → default sensor band id, default
parameters (`spec.get("params", {})` becomes a field defaulting to `[]`),
documentation reference. -/
structure IndexSpec : Type where
  formula : Formula
  bands : List (String × String)
  params : List (String × ℚ) := []
  reference : String
deriving DecidableEq

/-- The calculator; `band_map or {}` of `__init__` becomes the list itself,
with `[]` for the absent mapping. -/
structure SpectralIndexCalculator : Type where
  band_map : List (String × String)
deriving DecidableEq

namespace SpectralIndexCalculator

/-- Catalog entry for NDVI: `(NIR - RED) / (NIR + RED)`. -/
def ndviSpec : IndexSpec :=
  { formula := .div (.sub (.var "NIR") (.var "RED"))
                    (.add (.var "NIR") (.var "RED")),
    bands := [("NIR", "B8"), ("RED", "B4")],
    reference := "https://doi.org/10.1016/S0176-1617(11)81633-0" }

/-- Catalog entry for EVI:
`2.5 * (NIR - RED) / (NIR + 6*RED - 7.5*BLUE + 1)` (2.5 = 5/2, 7.5 = 15/2). -/
def eviSpec : IndexSpec :=
  { formula := .div (.mul (.num (mkRat 5 2)) (.sub (.var "NIR") (.var "RED")))
                    (.add (.sub (.add (.var "NIR")
                                      (.mul (.num 6) (.var "RED")))
                                (.mul (.num (mkRat 15 2)) (.var "BLUE")))
                          (.num 1)),
    bands := [("NIR", "B8"), ("RED", "B4"), ("BLUE", "B2")],
    reference := "https://doi.org/10.1016/S0034-4257(96)00112-5" }

/-- Catalog entry for kNDVI: `tanh(((NIR - RED) / (2 * sigma)) ** 2)` with
default parameter sigma = 0.5 = 1/2. -/
def kndviSpec : IndexSpec :=
  { formula := .tanh (.pow (.div (.sub (.var "NIR") (.var "RED"))
                                 (.mul (.num 2) (.var "sigma")))
                           (.num 2)),
    bands := [("NIR", "B8"), ("RED", "B4")],
    params := [("sigma", mkRat 1 2)],
    reference := "https://doi.org/10.1126/sciadv.abc7447" }

/-- Embedding of `SpectralIndexCalculator.INDEX_CATALOG`. -/
def INDEX_CATALOG : List (String × IndexSpec) :=
  [("NDVI", ndviSpec), ("EVI", eviSpec), ("kNDVI", kndviSpec)]

/-- Embedding of `get_band`: `image.select(self.band_map.get(band, band))`.
Note the argument the source passes here is the default sensor band id of
the spec, not the generic role name. -/
def get_band (c : SpectralIndexCalculator) (image : Image) (band : String) :
    Option Image :=
  select image (dgetD c.band_map band band)

/-- The band name `get_band` effectively selects. -/
def resolvedName (c : SpectralIndexCalculator) (band : String) : String :=
  dgetD c.band_map band band

/-- Embedding of the dict comprehension
`bands = {k: self.get_band(image, v) for k, v in spec["bands"].items()}`
as a structural recursion over the items; a failing `select` fails the
whole comprehension. -/
def resolveBandList (c : SpectralIndexCalculator) (image : Image) :
    List (String × String) → Option (List (String × EnvVal))
  | [] => some []
  | p :: rest =>
    (c.get_band image p.2).bind fun bimg =>
    (resolveBandList c image rest).map fun l => (p.1, EnvVal.img bimg) :: l

/-- The resolved-bands dict of `compute_index`. -/
def resolveBands (c : SpectralIndexCalculator) (image : Image)
    (spec : IndexSpec) : Option (List (String × EnvVal)) :=
  resolveBandList c image spec.bands

/-- Embedding of the parameter merge of `compute_index`:
`index_params = dict(spec.get("params", {})); if params: index_params.update(params)`.
With no caller params the update is skipped, which coincides with merging
the empty dict. -/
def mergedParams (spec : IndexSpec) (params : List (String × ℚ)) :
    List (String × ℚ) :=
  dupdate spec.params params

/-- Parameters injected as numeric symbol-table entries. -/
def numEnv (ps : List (String × ℚ)) : List (String × EnvVal) :=
  ps.map fun p => (p.1, EnvVal.num p.2)

/-- The symbol table `expr_dict = {**bands, **index_params}` built by
`compute_index` (parameters win over bands on key collision). -/
def exprEnv (c : SpectralIndexCalculator) (image : Image) (spec : IndexSpec)
    (params : List (String × ℚ)) : Option (List (String × EnvVal)) :=
  (resolveBands c image spec).map fun bands =>
    dupdate bands (numEnv (mergedParams spec params))

/-- Embedding of `compute_index`: catalog lookup (a key miss is the raised
`KeyError`, here `none`), parameter merge, band resolution, expression
evaluation, rename to the index name, append to the original image. -/
def compute_index (c : SpectralIndexCalculator) (image : Image)
    (index_name : String) (params : List (String × ℚ)) : Option Image :=
  (dget INDEX_CATALOG index_name).bind fun spec =>
  (exprEnv c image spec params).bind fun env =>
  (expression env spec.formula).map fun res =>
  addBands image (rename res index_name)

/-- Embedding of `add_indices`: the loop
`for idx in indices: image = self.compute_index(image, idx, params)`,
a raised error aborting the whole chain. -/
def add_indices (c : SpectralIndexCalculator) (image : Image)
    (indices : List String) (params : List (String × ℚ)) : Option Image :=
  match indices with
  | [] => some image
  | idx :: rest =>
    (c.compute_index image idx params).bind fun image2 =>
    c.add_indices image2 rest params

end SpectralIndexCalculator

/-- Embedding of the module-level `spectralIndices` attached to
`ee.ImageCollection`: build one calculator from `band_map` and map
`add_indices` over the collection (spec section 6, contract (e): the
per-image transform is applied to each image independently). -/
def spectralIndices (coll : List Image) (indices : List String)
    (band_map : List (String × String)) (params : List (String × ℚ)) :
    List (Option Image) :=
  let calculator : SpectralIndexCalculator := ⟨band_map⟩
  coll.map fun img => calculator.add_indices img indices params

/-- Symbols a formula references. -/
def Formula.vars : Formula → List String
  | .num _ => []
  | .var s => [s]
  | .add a b => a.vars ++ b.vars
  | .sub a b => a.vars ++ b.vars
  | .mul a b => a.vars ++ b.vars
  | .div a b => a.vars ++ b.vars
  | .pow a b => a.vars ++ b.vars
  | .tanh a => a.vars

/-- A symbol-table entry the engine can evaluate: a nonempty (in practice
single-band) image, or a number. -/
def EnvVal.ok : EnvVal → Prop
  | .img b => b ≠ []
  | .num _ => True

/-- The value `compute_index` computes for the new band (the result of the
expression evaluation), isolated from the band bookkeeping. -/
def SpectralIndexCalculator.indexValue (c : SpectralIndexCalculator)
    (image : Image) (index_name : String) (params : List (String × ℚ)) :
    Option Value :=
  (dget SpectralIndexCalculator.INDEX_CATALOG index_name).bind fun spec =>
  (SpectralIndexCalculator.exprEnv c image spec params).bind fun env =>
  evalFormula env spec.formula

/-!
A heap model of the Python dicts involved in the parameter merge of
`compute_index`.  The pure embedding above cannot express mutation, so the
read-only invariant of the catalog is checked against this model of
CPython aliasing: dict cells live in a heap, `dict(x)` allocates a fresh
cell holding a copy, and `d.update(o)` mutates the cell of `d` in place.
-/

/-- A heap of dict cells, addressed by allocation index. -/
structure DictHeap : Type where
  cells : List (List (String × ℚ))
deriving DecidableEq

/-- Read the dict stored at a reference. -/
def readRef (h : DictHeap) (r : Nat) : List (String × ℚ) :=
  h.cells.getD r []

/-- Python `dict(x)`: allocate a fresh cell holding a shallow copy of the
dict at `r`, returning the new heap and the fresh reference. -/
def dictCopy (h : DictHeap) (r : Nat) : DictHeap × Nat :=
  (⟨h.cells ++ [readRef h r]⟩, h.cells.length)

/-- Python `d.update(o)`: mutate the cell at `r` in place. -/
def updateRef (h : DictHeap) (r : Nat) (o : List (String × ℚ)) : DictHeap :=
  ⟨h.cells.set r (dupdate (readRef h r) o)⟩

/-- The parameter-merge step of `compute_index` on the heap model:
`index_params = dict(spec.get("params", {}))` then
`if params: index_params.update(params)` (an empty caller dict is falsy and
skips the update).  `specRef` is the reference the catalog holds to the
default-params dict of the spec. -/
def mergeParamsHeap (h : DictHeap) (specRef : Nat)
    (params : List (String × ℚ)) : DictHeap × Nat :=
  let copied := dictCopy h specRef
  let h2 := if params.isEmpty then copied.1 else updateRef copied.1 copied.2 params
  (h2, copied.2)

/-! Concrete instances used to exercise the embedding. -/

/-- A calculator with no band mapping (`band_map=None`). -/
def defaultCalc : SpectralIndexCalculator := ⟨[]⟩

/-- A calculator whose band mapping is keyed by the generic role name, as
the docstrings of the source describe: `band_map={"NIR": "B8A"}`. -/
def overrideCalc : SpectralIndexCalculator := ⟨[("NIR", "B8A")]⟩

/-- A Sentinel-2-like image carrying B8, B4 and also the narrow-NIR band
B8A, each with a distinct opaque pixel. -/
def roleKeyImage : Image := [("B8", .px 0), ("B4", .px 1), ("B8A", .px 2)]

/-- An image carrying the two default NDVI bands. -/
def nirRedImage : Image := [("B8", .px 0), ("B4", .px 1)]

/-- An image carrying all three default bands the catalog references. -/
def fullImage : Image := [("B8", .px 0), ("B4", .px 1), ("B2", .px 2)]

/-- The symbol table `compute_index` builds for NDVI on `nirRedImage` with
caller params `{"sigma": 0.7}`. -/
def ndviEnvSigma : List (String × EnvVal) :=
  [("NIR", .img [("B8", .px 0)]), ("RED", .img [("B4", .px 1)]),
   ("sigma", .num (mkRat 7 10))]

/-- The symbol table for kNDVI on `nirRedImage` with caller params
`{"sigma": 0.7}`. -/
def kndviEnvSigma : List (String × EnvVal) :=
  [("NIR", .img [("B8", .px 0)]), ("RED", .img [("B4", .px 1)]),
   ("sigma", .num (mkRat 7 10))]

/-- The symbol table for kNDVI on `nirRedImage` with no caller params:
sigma keeps the catalog default 1/2. -/
def kndviEnvDefault : List (String × EnvVal) :=
  [("NIR", .img [("B8", .px 0)]), ("RED", .img [("B4", .px 1)]),
   ("sigma", .num (mkRat 1 2))]

/-- The heap at module initialization, holding the one mutable dict the
catalog owns: the default-params dict of kNDVI, at reference 0. -/
def catalogHeap : DictHeap := ⟨[[("sigma", mkRat 1 2)]]⟩

/-! Lemmas about the dict embedding. -/

open SpectralIndexCalculator

theorem dfind_mem {α : Type} {d : List (String × α)} {k : String}
    {p : String × α} (h : dfind d k = some p) : p ∈ d := by
  induction d with
  | nil => simp [dfind] at h
  | cons q rest ih =>
    rw [dfind] at h
    split at h
    · cases h; exact List.mem_cons_self _ _
    · exact List.mem_cons_of_mem _ (ih h)

theorem dget_mem {α : Type} {d : List (String × α)} {k : String} {v : α}
    (h : dget d k = some v) : ∃ p ∈ d, p.2 = v := by
  unfold dget at h
  cases hf : dfind d k with
  | none => rw [hf] at h; cases h
  | some p =>
    rw [hf] at h
    exact ⟨p, dfind_mem hf, by cases h; rfl⟩

theorem dget_dinsert {α : Type} (d : List (String × α)) (k : String) (v : α)
    (k' : String) :
    dget (dinsert d k v) k' = if k' = k then some v else dget d k' := by
  induction d with
  | nil =>
    by_cases h : k' = k
    · simp [dinsert, dget, dfind, h]
    · have h2 : ¬ k = k' := fun e => h e.symm
      simp [dinsert, dget, dfind, h, h2]
  | cons p rest ih =>
    rw [dinsert]
    split
    · rename_i hp
      by_cases h : k' = k
      · simp [dget, dfind, h]
      · have h2 : ¬ k = k' := fun e => h e.symm
        simp [dget, dfind, h, hp, h2]
    · rename_i hp
      by_cases h : p.1 = k'
      · have hk : ¬ k' = k := fun e => hp (h.trans e)
        simp [dget, dfind, h, hk]
      · simp only [dget, dfind, h, if_false]
        exact ih

theorem dupdate_nil {α : Type} (d : List (String × α)) : dupdate d [] = d := rfl

theorem dupdate_cons {α : Type} (d : List (String × α)) (p : String × α)
    (o : List (String × α)) :
    dupdate d (p :: o) = dupdate (dinsert d p.1 p.2) o := rfl

theorem dget_dupdate_isSome {α : Type} (d o : List (String × α)) (k : String) :
    (dget (dupdate d o) k).isSome ↔ (dget d k).isSome ∨ (dget o k).isSome := by
  induction o generalizing d with
  | nil => simp [dupdate_nil, dget, dfind]
  | cons p o ih =>
    rw [dupdate_cons, ih, dget_dinsert]
    by_cases h : k = p.1
    · simp [dget, dfind, h]
    · have h2 : ¬ p.1 = k := fun e => h e.symm
      simp [dget, dfind, h, h2]

theorem mem_dinsert {α : Type} {d : List (String × α)} {k : String} {v : α}
    {q : String × α} (h : q ∈ dinsert d k v) : q ∈ d ∨ q = (k, v) := by
  induction d with
  | nil =>
    right
    simpa [dinsert] using h
  | cons p rest ih =>
    rw [dinsert] at h
    split at h
    · rcases List.mem_cons.mp h with h | h
      · right; exact h
      · left; exact List.mem_cons_of_mem _ h
    · rcases List.mem_cons.mp h with h | h
      · left; exact h ▸ List.mem_cons_self _ _
      · rcases ih h with h | h
        · left; exact List.mem_cons_of_mem _ h
        · right; exact h

theorem mem_dupdate {α : Type} {d o : List (String × α)} {q : String × α}
    (h : q ∈ dupdate d o) : q ∈ d ∨ q ∈ o := by
  induction o generalizing d with
  | nil => left; exact h
  | cons p o ih =>
    rw [dupdate_cons] at h
    rcases ih h with h | h
    · rcases mem_dinsert h with h | h
      · left; exact h
      · right; rw [h]; exact List.mem_cons_self _ _
    · right; exact List.mem_cons_of_mem _ h

theorem dget_isSome_iff_mem_keys {α : Type} (d : List (String × α))
    (k : String) : (dget d k).isSome ↔ k ∈ d.map Prod.fst := by
  induction d with
  | nil => simp [dget, dfind]
  | cons p rest ih =>
    simp only [dget, dfind, List.map_cons, List.mem_cons]
    split
    · rename_i h
      simp [h.symm]
    · rename_i h
      have : ¬ k = p.1 := fun e => h e.symm
      simp only [this, false_or]
      exact ih

theorem dget_numEnv (ps : List (String × ℚ)) (k : String) :
    dget (numEnv ps) k = (dget ps k).map EnvVal.num := by
  induction ps with
  | nil => rfl
  | cons p rest ih =>
    by_cases h : p.1 = k
    · simp [numEnv, dget, dfind, h]
    · simp only [numEnv, List.map_cons, dget, dfind, h, if_false] at ih ⊢
      exact ih

theorem dfind_append_left {α : Type} {d : List (String × α)} {k : String}
    (e : List (String × α)) (h : (dfind d k).isSome) :
    dfind (d ++ e) k = dfind d k := by
  induction d with
  | nil => simp [dfind] at h
  | cons p rest ih =>
    rw [List.cons_append, dfind, dfind]
    split
    · rfl
    · rename_i hp
      rw [dfind, if_neg hp] at h
      exact ih h

/-! Lemmas about band resolution and formula evaluation. -/

theorem get_band_append (c : SpectralIndexCalculator) (image ext : Image)
    (b : String) (h : (dfind image (resolvedName c b)).isSome) :
    c.get_band (image ++ ext) b = c.get_band image b := by
  unfold SpectralIndexCalculator.get_band select
  unfold resolvedName at h
  rw [dfind_append_left ext h]

theorem resolveBandList_success (c : SpectralIndexCalculator) (image : Image)
    (bands : List (String × String))
    (h : ∀ p ∈ bands, (dfind image (resolvedName c p.2)).isSome) :
    ∃ L, resolveBandList c image bands = some L
      ∧ L.map Prod.fst = bands.map Prod.fst
      ∧ ∀ q ∈ L, ∃ nm v, q.2 = EnvVal.img [(nm, v)] := by
  induction bands with
  | nil => exact ⟨[], rfl, rfl, by simp⟩
  | cons p rest ih =>
    have hb := h p (List.mem_cons_self _ _)
    obtain ⟨q, hq⟩ := Option.isSome_iff_exists.mp hb
    obtain ⟨L, hL, hkeys, hvals⟩ := ih (fun r hr => h r (List.mem_cons_of_mem _ hr))
    refine ⟨(p.1, EnvVal.img [q]) :: L, ?_, by simp [hkeys], ?_⟩
    · rw [resolveBandList]
      unfold SpectralIndexCalculator.get_band select
      unfold resolvedName at hq
      rw [hq, hL]
      rfl
    · intro x hx
      rcases List.mem_cons.mp hx with hx | hx
      · exact ⟨q.1, q.2, by rw [hx]⟩
      · exact hvals x hx

theorem resolveBandList_append (c : SpectralIndexCalculator)
    (image ext : Image) (bands : List (String × String))
    (h : ∀ p ∈ bands, (dfind image (resolvedName c p.2)).isSome) :
    resolveBandList c (image ++ ext) bands = resolveBandList c image bands := by
  induction bands with
  | nil => rfl
  | cons p rest ih =>
    rw [resolveBandList, resolveBandList,
        get_band_append c image ext p.2 (h p (List.mem_cons_self _ _)),
        ih (fun r hr => h r (List.mem_cons_of_mem _ hr))]

theorem evalFormula_isSome (env : List (String × EnvVal)) (f : Formula)
    (h : ∀ s ∈ f.vars, ∃ v, dget env s = some v ∧ v.ok) :
    (evalFormula env f).isSome := by
  induction f with
  | num q => simp [evalFormula]
  | var s =>
    obtain ⟨v, hv, hok⟩ := h s (by simp [Formula.vars])
    simp only [evalFormula, hv]
    cases v with
    | img b =>
      cases b with
      | nil => exact absurd rfl hok
      | cons q bs => simp
    | num q => simp
  | add a b iha ihb =>
    have ha := iha (fun s hs => h s (by simp [Formula.vars, hs]))
    have hb := ihb (fun s hs => h s (by simp [Formula.vars, hs]))
    obtain ⟨va, hva⟩ := Option.isSome_iff_exists.mp ha
    obtain ⟨vb, hvb⟩ := Option.isSome_iff_exists.mp hb
    simp [evalFormula, hva, hvb]
  | sub a b iha ihb =>
    have ha := iha (fun s hs => h s (by simp [Formula.vars, hs]))
    have hb := ihb (fun s hs => h s (by simp [Formula.vars, hs]))
    obtain ⟨va, hva⟩ := Option.isSome_iff_exists.mp ha
    obtain ⟨vb, hvb⟩ := Option.isSome_iff_exists.mp hb
    simp [evalFormula, hva, hvb]
  | mul a b iha ihb =>
    have ha := iha (fun s hs => h s (by simp [Formula.vars, hs]))
    have hb := ihb (fun s hs => h s (by simp [Formula.vars, hs]))
    obtain ⟨va, hva⟩ := Option.isSome_iff_exists.mp ha
    obtain ⟨vb, hvb⟩ := Option.isSome_iff_exists.mp hb
    simp [evalFormula, hva, hvb]
  | div a b iha ihb =>
    have ha := iha (fun s hs => h s (by simp [Formula.vars, hs]))
    have hb := ihb (fun s hs => h s (by simp [Formula.vars, hs]))
    obtain ⟨va, hva⟩ := Option.isSome_iff_exists.mp ha
    obtain ⟨vb, hvb⟩ := Option.isSome_iff_exists.mp hb
    simp [evalFormula, hva, hvb]
  | pow a b iha ihb =>
    have ha := iha (fun s hs => h s (by simp [Formula.vars, hs]))
    have hb := ihb (fun s hs => h s (by simp [Formula.vars, hs]))
    obtain ⟨va, hva⟩ := Option.isSome_iff_exists.mp ha
    obtain ⟨vb, hvb⟩ := Option.isSome_iff_exists.mp hb
    simp [evalFormula, hva, hvb]
  | tanh a iha =>
    have ha := iha (fun s hs => h s (by simp [Formula.vars, hs]))
    obtain ⟨va, hva⟩ := Option.isSome_iff_exists.mp ha
    simp [evalFormula, hva]

theorem exprEnv_success (c : SpectralIndexCalculator) (image : Image)
    (spec : IndexSpec) (params : List (String × ℚ))
    (hbands : ∀ p ∈ spec.bands, (dfind image (resolvedName c p.2)).isSome) :
    ∃ env, exprEnv c image spec params = some env
      ∧ (∀ s, (s ∈ spec.bands.map Prod.fst ∨ s ∈ spec.params.map Prod.fst) →
          (dget env s).isSome)
      ∧ (∀ q ∈ env, q.2.ok) := by
  obtain ⟨L, hL, hkeys, hvals⟩ := resolveBandList_success c image spec.bands hbands
  refine ⟨dupdate L (numEnv (mergedParams spec params)), ?_, ?_, ?_⟩
  · unfold SpectralIndexCalculator.exprEnv SpectralIndexCalculator.resolveBands
    rw [hL]
    rfl
  · intro s hs
    rw [dget_dupdate_isSome]
    rcases hs with hs | hs
    · left
      rw [dget_isSome_iff_mem_keys, hkeys]
      exact hs
    · right
      have hm : (dget (mergedParams spec params) s).isSome := by
        unfold SpectralIndexCalculator.mergedParams
        rw [dget_dupdate_isSome]
        left
        rw [dget_isSome_iff_mem_keys]
        exact hs
      obtain ⟨v, hv⟩ := Option.isSome_iff_exists.mp hm
      rw [dget_numEnv, hv]
      rfl
  · intro q hq
    rcases mem_dupdate hq with hq | hq
    · obtain ⟨nm, v, hv⟩ := hvals q hq
      rw [hv]
      exact fun e => by cases e
    · obtain ⟨p, _, hp⟩ := List.mem_map.mp hq
      rw [← hp]
      trivial

theorem indexValue_some (c : SpectralIndexCalculator) (image : Image)
    (name : String) (spec : IndexSpec) (params : List (String × ℚ))
    (hspec : dget INDEX_CATALOG name = some spec)
    (hvars : ∀ s ∈ spec.formula.vars,
      s ∈ spec.bands.map Prod.fst ∨ s ∈ spec.params.map Prod.fst)
    (hbands : ∀ p ∈ spec.bands, (dfind image (resolvedName c p.2)).isSome) :
    ∃ v, c.indexValue image name params = some v := by
  obtain ⟨env, hEnv, hcov, hok⟩ := exprEnv_success c image spec params hbands
  have heval : (evalFormula env spec.formula).isSome := by
    apply evalFormula_isSome
    intro s hs
    obtain ⟨v, hv⟩ := Option.isSome_iff_exists.mp (hcov s (hvars s hs))
    obtain ⟨q, hqmem, hq2⟩ := dget_mem hv
    exact ⟨v, hv, hq2 ▸ hok q hqmem⟩
  obtain ⟨v, hv⟩ := Option.isSome_iff_exists.mp heval
  refine ⟨v, ?_⟩
  unfold SpectralIndexCalculator.indexValue
  rw [hspec, Option.some_bind, hEnv, Option.some_bind, hv]

theorem compute_index_eq_indexValue (c : SpectralIndexCalculator)
    (image : Image) (name : String) (params : List (String × ℚ)) :
    c.compute_index image name params
      = (c.indexValue image name params).map fun v => image ++ [(name, v)] := by
  unfold SpectralIndexCalculator.compute_index SpectralIndexCalculator.indexValue
  cases h1 : dget INDEX_CATALOG name with
  | none => rfl
  | some spec =>
    rw [Option.some_bind, Option.some_bind]
    cases h2 : exprEnv c image spec params with
    | none => rfl
    | some env =>
      rw [Option.some_bind, Option.some_bind]
      cases h3 : evalFormula env spec.formula with
      | none => simp [expression, h3]
      | some v =>
        simp [expression, h3, rename, addBands]

theorem indexValue_append (c : SpectralIndexCalculator) (image ext : Image)
    (name : String) (spec : IndexSpec) (params : List (String × ℚ))
    (hspec : dget INDEX_CATALOG name = some spec)
    (hbands : ∀ p ∈ spec.bands, (dfind image (resolvedName c p.2)).isSome) :
    c.indexValue (image ++ ext) name params = c.indexValue image name params := by
  unfold SpectralIndexCalculator.indexValue
  rw [hspec, Option.some_bind, Option.some_bind]
  unfold SpectralIndexCalculator.exprEnv SpectralIndexCalculator.resolveBands
  rw [resolveBandList_append c image ext spec.bands hbands]

theorem catalog_cases {name : String} {spec : IndexSpec}
    (h : dget INDEX_CATALOG name = some spec) :
    (name = "NDVI" ∧ spec = ndviSpec) ∨ (name = "EVI" ∧ spec = eviSpec)
      ∨ (name = "kNDVI" ∧ spec = kndviSpec) := by
  simp only [INDEX_CATALOG, dget, dfind] at h
  split_ifs at h with h1 h2 h3
  · exact Or.inl ⟨h1.symm, by cases h; rfl⟩
  · exact Or.inr (Or.inl ⟨h2.symm, by cases h; rfl⟩)
  · exact Or.inr (Or.inr ⟨h3.symm, by cases h; rfl⟩)
  · exact absurd h (by simp)

/-! Claim theorems. -/

/-- C9: `add_indices` with an empty index list is the identity — for every
calculator (hence every band_map), image and params, the image is returned
unchanged, with no band added and no expression evaluated. -/
theorem add_indices_nil_identity :
    ∀ (c : SpectralIndexCalculator) (image : Image)
      (params : List (String × ℚ)),
      c.add_indices image [] params = some image :=
  fun _ _ _ => rfl

/-- C5: `add_indices` equals the left fold of `compute_index` over the
index names in list order, and on a nonempty list the image returned by
computing the first index is the input threaded into the rest, so a later
index may reference a band added by an earlier one. -/
theorem add_indices_is_left_fold :
    (∀ (c : SpectralIndexCalculator) (image : Image) (indices : List String)
       (params : List (String × ℚ)),
      c.add_indices image indices params
        = indices.foldlM (fun img idx => c.compute_index img idx params) image)
    ∧ (∀ (c : SpectralIndexCalculator) (image : Image) (idx : String)
         (rest : List String) (params : List (String × ℚ)),
        c.add_indices image (idx :: rest) params
          = (c.compute_index image idx params).bind fun image2 =>
              c.add_indices image2 rest params) := by
  constructor
  · intro c image indices params
    induction indices generalizing image with
    | nil => rfl
    | cons idx rest ih =>
      rw [SpectralIndexCalculator.add_indices, List.foldlM_cons]
      cases h : c.compute_index image idx params with
      | none => rfl
      | some image2 => simp [h, ih]
  · intro c image idx rest params
    rfl

/-- C7: `spectralIndices` over a collection of M images yields M results,
the i-th being `add_indices` of the i-th input image alone, computed by a
calculator built from the given band_map; images never interact. -/
theorem spectralIndices_pointwise :
    ∀ (coll : List Image) (indices : List String)
      (band_map : List (String × String)) (params : List (String × ℚ)),
      (spectralIndices coll indices band_map params).length = coll.length
      ∧ ∀ i : Nat,
          (spectralIndices coll indices band_map params)[i]?
            = (coll[i]?).map fun img =>
                SpectralIndexCalculator.add_indices ⟨band_map⟩ img indices params := by
  intro coll indices band_map params
  refine ⟨List.length_map _ _, ?_⟩
  intro i
  exact List.getElem?_map _ _ _

/-- C2: an index name absent from the catalog makes `compute_index` fail by
the bare catalog key miss (`none` here, the uncaught KeyError), before any
image or params processing; "FOOBAR" is such a name; and the lookup
succeeds exactly for the three catalog names. -/
theorem unknown_index_key_miss :
    (∀ (c : SpectralIndexCalculator) (image : Image)
       (params : List (String × ℚ)) (name : String),
      dget SpectralIndexCalculator.INDEX_CATALOG name = none →
      c.compute_index image name params = none)
    ∧ dget SpectralIndexCalculator.INDEX_CATALOG "FOOBAR" = none
    ∧ (∀ name : String,
        (dget SpectralIndexCalculator.INDEX_CATALOG name).isSome
          ↔ (name = "NDVI" ∨ name = "EVI" ∨ name = "kNDVI")) := by
  refine ⟨?_, by decide, ?_⟩
  · intro c image params name h
    unfold SpectralIndexCalculator.compute_index
    rw [h]
    rfl
  · intro name
    constructor
    · intro h
      obtain ⟨spec, hs⟩ := Option.isSome_iff_exists.mp h
      rcases catalog_cases hs with ⟨h1, _⟩ | ⟨h1, _⟩ | ⟨h1, _⟩ <;> simp [h1]
    · rintro (h | h | h) <;> subst h <;> decide

/-- Witness for C2 at the concrete unknown name "FOOBAR". -/
theorem unknown_index_key_miss_witness :
    dget SpectralIndexCalculator.INDEX_CATALOG "FOOBAR" = none
    ∧ SpectralIndexCalculator.compute_index defaultCalc nirRedImage "FOOBAR" [] = none :=
  ⟨by decide, unknown_index_key_miss.1 defaultCalc nirRedImage [] "FOOBAR" (by decide)⟩

/-- C3: for kNDVI, the caller value for "sigma" wins the merge and is the
value bound to "sigma" in the symbol table handed to the engine; with no
caller override the catalog default 1/2 is bound. -/
theorem kndvi_sigma_override :
    ∀ (spec : IndexSpec) (c : SpectralIndexCalculator) (image : Image)
      (env envd : List (String × EnvVal)),
      dget SpectralIndexCalculator.INDEX_CATALOG "kNDVI" = some spec →
      dget (mergedParams spec [("sigma", mkRat 7 10)]) "sigma" = some (mkRat 7 10)
      ∧ dget (mergedParams spec []) "sigma" = some (mkRat 1 2)
      ∧ (exprEnv c image spec [("sigma", mkRat 7 10)] = some env →
          dget env "sigma" = some (EnvVal.num (mkRat 7 10)))
      ∧ (exprEnv c image spec [] = some envd →
          dget envd "sigma" = some (EnvVal.num (mkRat 1 2))) := by
  intro spec c image env envd hspec
  have hs : spec = kndviSpec := by
    rcases catalog_cases hspec with ⟨h1, h2⟩ | ⟨h1, h2⟩ | ⟨h1, h2⟩
    · exact absurd h1 (by decide)
    · exact absurd h1 (by decide)
    · exact h2
  subst hs
  refine ⟨by decide, by decide, ?_, ?_⟩
  · intro he
    obtain ⟨L, hL, henv⟩ := Option.map_eq_some'.mp he
    rw [← henv]
    show dget (dinsert L "sigma" (EnvVal.num (mkRat 7 10))) "sigma"
      = some (EnvVal.num (mkRat 7 10))
    rw [dget_dinsert]
    simp
  · intro he
    obtain ⟨L, hL, henv⟩ := Option.map_eq_some'.mp he
    rw [← henv]
    show dget (dinsert L "sigma" (EnvVal.num (mkRat 1 2))) "sigma"
      = some (EnvVal.num (mkRat 1 2))
    rw [dget_dinsert]
    simp

/-- Witness for C3: the kNDVI symbol table on a concrete image binds sigma
to 7/10 under the override and to the default 1/2 without it. -/
theorem kndvi_sigma_override_witness :
    dget SpectralIndexCalculator.INDEX_CATALOG "kNDVI" = some kndviSpec
    ∧ dget (mergedParams kndviSpec [("sigma", mkRat 7 10)]) "sigma" = some (mkRat 7 10)
    ∧ exprEnv defaultCalc nirRedImage kndviSpec [("sigma", mkRat 7 10)]
        = some kndviEnvSigma
    ∧ dget kndviEnvSigma "sigma" = some (EnvVal.num (mkRat 7 10))
    ∧ exprEnv defaultCalc nirRedImage kndviSpec [] = some kndviEnvDefault
    ∧ dget kndviEnvDefault "sigma" = some (EnvVal.num (mkRat 1 2)) := by
  refine ⟨by decide, ?_, by decide, ?_, by decide, ?_⟩
  · exact (kndvi_sigma_override kndviSpec defaultCalc nirRedImage
      kndviEnvSigma kndviEnvDefault (by decide)).1
  · exact (kndvi_sigma_override kndviSpec defaultCalc nirRedImage
      kndviEnvSigma kndviEnvDefault (by decide)).2.2.1 (by decide)
  · exact (kndvi_sigma_override kndviSpec defaultCalc nirRedImage
      kndviEnvSigma kndviEnvDefault (by decide)).2.2.2 (by decide)

/-- C10: the one params mapping is applied to every requested index, not
scoped per index: caller params are merged into the symbol table of every
computed index, so with `["NDVI", "kNDVI"]` and `{"sigma": 0.7}` the NDVI
symbol table also binds "sigma" (to 7/10) although the NDVI catalog entry
declares no parameters; and `add_indices` hands the identical params to
each step. -/
theorem params_apply_to_every_index :
    (∀ (spec : IndexSpec) (c : SpectralIndexCalculator) (image : Image)
       (env : List (String × EnvVal)),
      dget SpectralIndexCalculator.INDEX_CATALOG "NDVI" = some spec →
      exprEnv c image spec [("sigma", mkRat 7 10)] = some env →
      dget env "sigma" = some (EnvVal.num (mkRat 7 10)))
    ∧ (∀ (c : SpectralIndexCalculator) (image : Image)
         (params : List (String × ℚ)) (i j : String) (rest : List String),
        c.add_indices image (i :: j :: rest) params
          = (c.compute_index image i params).bind fun m =>
              (c.compute_index m j params).bind fun m2 =>
                c.add_indices m2 rest params) := by
  constructor
  · intro spec c image env hspec he
    have hs : spec = ndviSpec := by
      rcases catalog_cases hspec with ⟨h1, h2⟩ | ⟨h1, h2⟩ | ⟨h1, h2⟩
      · exact h2
      · exact absurd h1 (by decide)
      · exact absurd h1 (by decide)
    subst hs
    obtain ⟨L, hL, henv⟩ := Option.map_eq_some'.mp he
    rw [← henv]
    show dget (dinsert L "sigma" (EnvVal.num (mkRat 7 10))) "sigma"
      = some (EnvVal.num (mkRat 7 10))
    rw [dget_dinsert]
    simp
  · intro c image params i j rest
    rfl

/-- Witness for C10: computing NDVI on a concrete image with the caller
params meant for kNDVI binds "sigma" in the NDVI symbol table. -/
theorem params_apply_to_every_index_witness :
    dget SpectralIndexCalculator.INDEX_CATALOG "NDVI" = some ndviSpec
    ∧ exprEnv defaultCalc nirRedImage ndviSpec [("sigma", mkRat 7 10)]
        = some ndviEnvSigma
    ∧ dget ndviEnvSigma "sigma" = some (EnvVal.num (mkRat 7 10)) :=
  ⟨by decide, by decide,
    params_apply_to_every_index.1 ndviSpec defaultCalc nirRedImage
      ndviEnvSigma (by decide) (by decide)⟩

/-- C4: for every catalog index and every image carrying (under the band
resolution the code actually performs) all bands the entry requires,
`compute_index` returns the original image with exactly one new band
appended, named after the index — prior bands, values and order
untouched — for every band_map and params. -/
theorem compute_index_appends_one_band :
    ∀ (name : String) (spec : IndexSpec) (c : SpectralIndexCalculator)
      (image : Image) (params : List (String × ℚ)),
      dget SpectralIndexCalculator.INDEX_CATALOG name = some spec →
      (∀ p ∈ spec.bands, (dfind image (resolvedName c p.2)).isSome) →
      ∃ v, c.compute_index image name params = some (image ++ [(name, v)]) := by
  intro name spec c image params hspec hbands
  have hvars : ∀ s ∈ spec.formula.vars,
      s ∈ spec.bands.map Prod.fst ∨ s ∈ spec.params.map Prod.fst := by
    rcases catalog_cases hspec with ⟨_, h⟩ | ⟨_, h⟩ | ⟨_, h⟩ <;> subst h <;> decide
  obtain ⟨v, hv⟩ := indexValue_some c image name spec params hspec hvars hbands
  refine ⟨v, ?_⟩
  rw [compute_index_eq_indexValue, hv]
  rfl

/-- Witness for C4 at NDVI on a concrete two-band image. -/
theorem compute_index_appends_one_band_witness :
    (∀ p ∈ ndviSpec.bands, (dfind nirRedImage (resolvedName defaultCalc p.2)).isSome)
    ∧ ∃ v, SpectralIndexCalculator.compute_index defaultCalc nirRedImage "NDVI" []
        = some (nirRedImage ++ [("NDVI", v)]) :=
  ⟨by decide,
    compute_index_appends_one_band "NDVI" ndviSpec defaultCalc nirRedImage []
      (by decide) (by decide)⟩

/-- C6: for the current catalog, whose entries read only source bands,
`add_indices` with `["NDVI", "EVI"]` and with `["EVI", "NDVI"]` — on an
image carrying every band the two entries resolve to — append the same two
bands with the same values, the results differing only in the order of the
two appended bands (so the band multisets agree). -/
theorem add_indices_order_independent :
    ∀ (c : SpectralIndexCalculator) (image : Image)
      (params : List (String × ℚ)) (specN specE : IndexSpec),
      dget SpectralIndexCalculator.INDEX_CATALOG "NDVI" = some specN →
      dget SpectralIndexCalculator.INDEX_CATALOG "EVI" = some specE →
      (∀ p ∈ specN.bands, (dfind image (resolvedName c p.2)).isSome) →
      (∀ p ∈ specE.bands, (dfind image (resolvedName c p.2)).isSome) →
      ∃ vN vE,
        c.add_indices image ["NDVI", "EVI"] params
          = some (image ++ [("NDVI", vN), ("EVI", vE)])
        ∧ c.add_indices image ["EVI", "NDVI"] params
          = some (image ++ [("EVI", vE), ("NDVI", vN)])
        ∧ (image ++ [("NDVI", vN), ("EVI", vE)]).Perm
            (image ++ [("EVI", vE), ("NDVI", vN)]) := by
  intro c image params specN specE hN hE hbN hbE
  have hvarsN : ∀ s ∈ specN.formula.vars,
      s ∈ specN.bands.map Prod.fst ∨ s ∈ specN.params.map Prod.fst := by
    rcases catalog_cases hN with ⟨h1, h⟩ | ⟨h1, h⟩ | ⟨h1, h⟩
    · subst h; decide
    · exact absurd h1 (by decide)
    · exact absurd h1 (by decide)
  have hvarsE : ∀ s ∈ specE.formula.vars,
      s ∈ specE.bands.map Prod.fst ∨ s ∈ specE.params.map Prod.fst := by
    rcases catalog_cases hE with ⟨h1, h⟩ | ⟨h1, h⟩ | ⟨h1, h⟩
    · exact absurd h1 (by decide)
    · subst h; decide
    · exact absurd h1 (by decide)
  obtain ⟨vN, hvN⟩ := indexValue_some c image "NDVI" specN params hN hvarsN hbN
  obtain ⟨vE, hvE⟩ := indexValue_some c image "EVI" specE params hE hvarsE hbE
  have hciN : c.compute_index image "NDVI" params
      = some (image ++ [("NDVI", vN)]) := by
    rw [compute_index_eq_indexValue, hvN]
    rfl
  have hciE : c.compute_index image "EVI" params
      = some (image ++ [("EVI", vE)]) := by
    rw [compute_index_eq_indexValue, hvE]
    rfl
  have hciE2 : c.compute_index (image ++ [("NDVI", vN)]) "EVI" params
      = some ((image ++ [("NDVI", vN)]) ++ [("EVI", vE)]) := by
    rw [compute_index_eq_indexValue,
        indexValue_append c image [("NDVI", vN)] "EVI" specE params hE hbE, hvE]
    rfl
  have hciN2 : c.compute_index (image ++ [("EVI", vE)]) "NDVI" params
      = some ((image ++ [("EVI", vE)]) ++ [("NDVI", vN)]) := by
    rw [compute_index_eq_indexValue,
        indexValue_append c image [("EVI", vE)] "NDVI" specN params hN hbN, hvN]
    rfl
  refine ⟨vN, vE, ?_, ?_, ?_⟩
  · show (c.compute_index image "NDVI" params).bind
        (fun image2 => c.add_indices image2 ["EVI"] params) = _
    rw [hciN, Option.some_bind]
    show (c.compute_index (image ++ [("NDVI", vN)]) "EVI" params).bind
        (fun image2 => c.add_indices image2 [] params) = _
    rw [hciE2, Option.some_bind]
    show some ((image ++ [("NDVI", vN)]) ++ [("EVI", vE)]) = _
    rw [List.append_assoc]
    rfl
  · show (c.compute_index image "EVI" params).bind
        (fun image2 => c.add_indices image2 ["NDVI"] params) = _
    rw [hciE, Option.some_bind]
    show (c.compute_index (image ++ [("EVI", vE)]) "NDVI" params).bind
        (fun image2 => c.add_indices image2 [] params) = _
    rw [hciN2, Option.some_bind]
    show some ((image ++ [("EVI", vE)]) ++ [("NDVI", vN)]) = _
    rw [List.append_assoc]
    rfl
  · exact List.Perm.append_left image (List.Perm.swap _ _ _)

/-- Witness for C6 on a concrete three-band image with no band mapping. -/
theorem add_indices_order_independent_witness :
    (∀ p ∈ ndviSpec.bands, (dfind fullImage (resolvedName defaultCalc p.2)).isSome)
    ∧ (∀ p ∈ eviSpec.bands, (dfind fullImage (resolvedName defaultCalc p.2)).isSome)
    ∧ ∃ vN vE,
        SpectralIndexCalculator.add_indices defaultCalc fullImage ["NDVI", "EVI"] []
          = some (fullImage ++ [("NDVI", vN), ("EVI", vE)])
        ∧ SpectralIndexCalculator.add_indices defaultCalc fullImage ["EVI", "NDVI"] []
          = some (fullImage ++ [("EVI", vE), ("NDVI", vN)])
        ∧ (fullImage ++ [("NDVI", vN), ("EVI", vE)]).Perm
            (fullImage ++ [("EVI", vE), ("NDVI", vN)]) :=
  ⟨by decide, by decide,
    add_indices_order_independent defaultCalc fullImage [] ndviSpec eviSpec
      (by decide) (by decide) (by decide) (by decide)⟩

/-- C1 (divergence witness): with `band_map={"NIR": "B8A"}` on an image
carrying B8, B4 and B8A, NDVI is computed from the B8 pixel (`px 0`) and the
B4 pixel (`px 1`): the role-keyed band_map entry is never consulted, because
`compute_index` calls `get_band` with the default sensor id `v`, so the
lookup is `band_map.get("B8", "B8")`, not `band_map.get("NIR", "B8")`.  Had
NIR resolved to "B8A" as the claim and the docstrings state, the new band
would reference `px 2`. -/
theorem band_map_role_keys_ignored :
    SpectralIndexCalculator.compute_index overrideCalc roleKeyImage "NDVI" []
      = some [("B8", Value.px 0), ("B4", Value.px 1), ("B8A", Value.px 2),
              ("NDVI", Value.div (Value.sub (Value.px 0) (Value.px 1))
                                 (Value.add (Value.px 0) (Value.px 1)))]
    ∧ dget overrideCalc.band_map "NIR" = some "B8A"
    ∧ resolvedName overrideCalc "B8" = "B8" := by
  exact ⟨by decide, by decide, by decide⟩

/-! Heap lemmas for the read-only catalog claim. -/

theorem readRef_dictCopy_lt (h : DictHeap) (r r0 : Nat)
    (hr : r0 < h.cells.length) :
    readRef (dictCopy h r).1 r0 = readRef h r0 := by
  unfold readRef dictCopy
  exact List.getD_append _ _ _ _ hr

theorem readRef_dictCopy_new (h : DictHeap) (r : Nat) :
    readRef (dictCopy h r).1 (dictCopy h r).2 = readRef h r := by
  unfold readRef dictCopy
  rw [List.getD_append_right _ _ _ _ (le_refl _), Nat.sub_self]
  rfl

theorem readRef_updateRef_ne (h : DictHeap) (r : Nat)
    (o : List (String × ℚ)) (r0 : Nat) (hne : r ≠ r0) :
    readRef (updateRef h r o) r0 = readRef h r0 := by
  unfold readRef updateRef
  rw [List.getD_eq_getElem?_getD, List.getD_eq_getElem?_getD,
      List.getElem?_set_ne hne]

theorem readRef_updateRef_self (h : DictHeap) (r : Nat)
    (o : List (String × ℚ)) (hlt : r < h.cells.length) :
    readRef (updateRef h r o) r = dupdate (readRef h r) o := by
  unfold readRef updateRef
  rw [List.getD_eq_getElem?_getD, List.getElem?_set_self hlt]
  rfl

/-- C8: the parameter merge of `compute_index` — the one write the code
performs on any dict reachable from the catalog — never changes any heap
cell that existed before the call (in particular the stored default params
dict of kNDVI stays intact for subsequent calls); the merge result lives in
a freshly allocated cell holding defaults updated by caller params. -/
theorem catalog_params_read_only :
    ∀ (h : DictHeap) (specRef : Nat) (params : List (String × ℚ)) (r0 : Nat),
      r0 < h.cells.length →
      readRef (mergeParamsHeap h specRef params).1 r0 = readRef h r0
      ∧ readRef (mergeParamsHeap h specRef params).1
          (mergeParamsHeap h specRef params).2
          = dupdate (readRef h specRef) params := by
  intro h specRef params r0 hr
  unfold mergeParamsHeap
  by_cases hp : params.isEmpty
  · have hpe : params = [] := List.isEmpty_iff.mp hp
    subst hpe
    simp only [List.isEmpty_nil, if_true]
    exact ⟨readRef_dictCopy_lt h specRef r0 hr,
      by rw [dupdate_nil]; exact readRef_dictCopy_new h specRef⟩
  · simp only [hp, Bool.false_eq_true, if_false]
    constructor
    · have hne : (dictCopy h specRef).2 ≠ r0 := Nat.ne_of_gt hr
      rw [readRef_updateRef_ne _ _ _ _ hne]
      exact readRef_dictCopy_lt h specRef r0 hr
    · have hlt : (dictCopy h specRef).2 < (dictCopy h specRef).1.cells.length := by
        unfold dictCopy
        simp
      rw [readRef_updateRef_self _ _ _ hlt, readRef_dictCopy_new]

/-- Witness for C8 on the initial heap holding the kNDVI defaults dict:
after merging `{"sigma": 0.7}`, the catalog cell still reads
`{"sigma": 0.5}` while the fresh cell holds the override. -/
theorem catalog_params_read_only_witness :
    0 < catalogHeap.cells.length
    ∧ readRef (mergeParamsHeap catalogHeap 0 [("sigma", mkRat 7 10)]).1 0
        = [("sigma", mkRat 1 2)]
    ∧ readRef (mergeParamsHeap catalogHeap 0 [("sigma", mkRat 7 10)]).1
        (mergeParamsHeap catalogHeap 0 [("sigma", mkRat 7 10)]).2
        = [("sigma", mkRat 7 10)] := by
  refine ⟨by decide, ?_, ?_⟩
  · rw [(catalog_params_read_only catalogHeap 0 [("sigma", mkRat 7 10)] 0
      (by decide)).1]
    decide
  · rw [(catalog_params_read_only catalogHeap 0 [("sigma", mkRat 7 10)] 0
      (by decide)).2]
    decide
